import Mathlib

/-!
Verification development for `src/fdbserver/workloads/RawTenantAccessWorkload.actor.cpp`.

The workload keeps a local model of tenant existence in four containers:

  std::map<int, int64_t> idx2Tid;        -- tenant index to tenant id
  std::map<int64_t, int> tid2Idx;        -- tenant id to tenant index
  std::set<int> lastCreatedTenants;      -- indices created by the in-flight transaction
  std::set<int> lastDeletedTenants;      -- indices deleted by the in-flight transaction

The two `std::map`s are embedded as association lists with the ordered-map
operations (lookup, erase, lower bound = least key at or above, begin = least
key) defined order-insensitively, and the two `std::set`s as `Finset Nat`.
Machine integers are embedded as `Nat` (indices) and `Int` (tenant ids);
`predictTenantCount` is computed over `Int`, which agrees with the C++ `int`
result for all container sizes below 2^31.  Fallible C++ behaviour
(`std::map::at` throwing `std::out_of_range`, ASSERT macros, scans that can
loop forever, rejection sampling) is embedded with `Except`/`Option`:
the random streams consumed by `deterministicRandom()` are passed in
explicitly as arguments.
-/

namespace RawTenantAccess

/-- Error outcomes of the embedded operations: `outOfRange` models a
`std::map::at` miss, `assertFailed` a failing ASSERT macro, `scanStuck` a
slot scan that finds no eligible slot within one full wrap (the C++ loop
would never terminate), `randExhausted` a rejection-sampling loop that ran
out of the supplied random stream, and `decodeError` a failed decode of the
assigned-identifier payload. -/
inductive WErr where
  | outOfRange
  | assertFailed
  | scanStuck
  | randExhausted
  | decodeError
deriving DecidableEq

/-- Decidable equality for `Except`, used so that concrete runs of the
embedded operations can be checked by `decide`. -/
instance {ε α : Type} [DecidableEq ε] [DecidableEq α] : DecidableEq (Except ε α) := fun a b =>
  match a, b with
  | .ok x, .ok y =>
    if h : x = y then isTrue (by rw [h]) else isFalse (by simp [h])
  | .ok _, .error _ => isFalse (by simp)
  | .error _, .ok _ => isFalse (by simp)
  | .error e, .error f =>
    if h : e = f then isTrue (by rw [h]) else isFalse (by simp [h])

/-- A key mutation added to the in-flight transaction.  `setTenantKey i`
stands for setting the management special key of tenant index `i` (tenant
creation request), `clearTenantKey i` for clearing it (deletion request),
and `setRaw tid` for writing the fixed key/value pair under the data range
of tenant id `tid` (the concatenation of the id-derived key range start with
the fixed suffix, which we do not model byte-for-byte). -/
inductive Mutation where
  | setTenantKey (idx : Nat)
  | clearTenantKey (idx : Nat)
  | setRaw (tid : Int)
deriving DecidableEq

/-- The workload's local tenant model: the four containers of
`RawTenantAccessWorkload`. -/
structure Model where
  idx2Tid : List (Nat × Int)
  tid2Idx : List (Int × Nat)
  lastCreatedTenants : Finset Nat
  lastDeletedTenants : Finset Nat
deriving DecidableEq

/-- Key membership, `std::map::count(k) > 0`. -/
def mapContains {α β : Type} [DecidableEq α] (l : List (α × β)) (k : α) : Bool :=
  decide (k ∈ l.map Prod.fst)

/-- Key removal, `std::map::erase(k)`. -/
def mapErase {α β : Type} [DecidableEq α] (l : List (α × β)) (k : α) : List (α × β) :=
  l.filter (fun p => decide (p.1 ≠ k))

/-- `predictTenantCount()` (line 140):
`idx2Tid.size() + lastCreatedTenants.size() - lastDeletedTenants.size()`. -/
def predictTenantCount (m : Model) : Int :=
  (m.idx2Tid.length : Int) + (m.lastCreatedTenants.card : Int)
    - (m.lastDeletedTenants.card : Int)

/-- The cyclic slot scan order starting at `r`: `r, r+1, ..., N-1, 0, ...`,
one full wrap of the `tenantIdx++; if (tenantIdx == tenantCount) tenantIdx = 0`
loop. -/
def cycleFrom (r N : Nat) : List Nat :=
  (List.range N).map (fun k => (r + k) % N)

/-- The slot at which the scan of `createNewTenant` (lines 146-151) stops:
the first slot in cyclic order from `r` for which the loop condition
`idx2Tid.count(tenantIdx) and lastCreatedTenants.count(tenantIdx)` fails.
Returns `none` when no slot in a full wrap is eligible (the C++ loop would
spin forever). -/
def pickSlotForCreate (m : Model) (N r : Nat) : Option Nat :=
  (cycleFrom r N).find? fun i =>
    !(mapContains m.idx2Tid i && decide (i ∈ m.lastCreatedTenants))

/-- `createNewTenant` (lines 142-156): assert `predictTenantCount() <
tenantCount`, scan for a slot, issue the creation mutation, insert the slot
into `lastCreatedTenants` and erase it from `lastDeletedTenants`. -/
def createNewTenant (m : Model) (N r : Nat) : Except WErr (Model × List Mutation) :=
  if predictTenantCount m < (N : Int) then
    match pickSlotForCreate m N r with
    | some i =>
      .ok ({ m with lastCreatedTenants := insert i m.lastCreatedTenants,
                    lastDeletedTenants := m.lastDeletedTenants.erase i },
           [Mutation.setTenantKey i])
    | none => .error .scanStuck
  else .error .assertFailed

/-- The slot at which the scan of `deleteExistedTenant` (lines 162-171)
stops: the first slot in cyclic order from `r` satisfying
`(idx2Tid.count(i) or lastCreatedTenants.count(i)) and not lastDeletedTenants.count(i)`. -/
def pickSlotForDelete (m : Model) (N r : Nat) : Option Nat :=
  (cycleFrom r N).find? fun i =>
    (mapContains m.idx2Tid i || decide (i ∈ m.lastCreatedTenants)) &&
      !decide (i ∈ m.lastDeletedTenants)

/-- `deleteExistedTenant` (lines 158-177): assert `predictTenantCount() > 0`,
scan for an existing slot, issue the clearing mutation, erase the slot from
`lastCreatedTenants` and insert it into `lastDeletedTenants`. -/
def deleteExistedTenant (m : Model) (N r : Nat) : Except WErr (Model × List Mutation) :=
  if 0 < predictTenantCount m then
    match pickSlotForDelete m N r with
    | some i =>
      .ok ({ m with lastCreatedTenants := m.lastCreatedTenants.erase i,
                    lastDeletedTenants := insert i m.lastDeletedTenants },
           [Mutation.clearTenantKey i])
    | none => .error .scanStuck
  else .error .assertFailed

/-- `idx2Tid.lower_bound(x)` followed by the wrap to `idx2Tid.begin()` when
the bound is past the end (lines 183-188): the least key at or above `x`,
or the least key overall when there is none. -/
def lowerBoundKey (l : List (Nat × Int)) (x : Nat) : Option Nat :=
  match ((l.map Prod.fst).filter (fun k => decide (x ≤ k))).min? with
  | some k => some k
  | none => (l.map Prod.fst).min?

/-- `writeToExistedTenant` (lines 179-194): assert `idx2Tid.size() > 0`,
pick the active slot nearest at or above the random index `r` (wrapping to
the least one), and write the fixed raw key/value pair under that slot's
tenant id. -/
def writeToExistedTenant (m : Model) (r : Nat) : Except WErr (Model × Mutation) :=
  if 0 < m.idx2Tid.length then
    match lowerBoundKey m.idx2Tid r with
    | some k =>
      match m.idx2Tid.lookup k with
      | some tid => .ok (m, Mutation.setRaw tid)
      | none => .error .outOfRange
    | none => .error .outOfRange
  else .error .assertFailed

/-- `writeToInvalidTenant` (lines 196-214): assert `predictTenantCount() <
tenantCount`; with `coin` true and a non-empty `lastDeletedTenants`, take the
id of the least slot deleted in this transaction via `idx2Tid.at`
(`std::map::at` throws when the slot is not in `idx2Tid`); otherwise
rejection-sample ids from the stream `cands` (each drawn by
`randomInt64(0, int64 max)`) until one is not a key of `tid2Idx`.  Then
`ASSERT_GE(tenantId, 0)` and write the raw key/value pair under that id. -/
def writeToInvalidTenant (N : Nat) (m : Model) (coin : Bool) (cands : List Int) :
    Except WErr (Model × Mutation) :=
  if predictTenantCount m < (N : Int) then
    if h : coin = true ∧ m.lastDeletedTenants.Nonempty then
      match m.idx2Tid.lookup (m.lastDeletedTenants.min' h.2) with
      | some tid =>
        if tid < 0 then .error .assertFailed else .ok (m, Mutation.setRaw tid)
      | none => .error .outOfRange
    else
      match cands.find? (fun c => !mapContains m.tid2Idx c) with
      | some tid =>
        if tid < 0 then .error .assertFailed else .ok (m, Mutation.setRaw tid)
      | none => .error .randExhausted
  else .error .assertFailed

/-- One step of `eraseDeletedTenants` (lines 95-99), for one slot index of
`lastDeletedTenants`: `auto tid = tid2Idx.at(idx); tid2Idx.erase(tid);
idx2Tid.erase(idx);` — note the lookup is in `tid2Idx`, keyed by tenant id,
with the slot index as argument, exactly as in the source. -/
def reconcileDeleteStep (maps : List (Nat × Int) × List (Int × Nat)) (idx : Nat) :
    Except WErr (List (Nat × Int) × List (Int × Nat)) :=
  match maps.2.lookup (idx : Int) with
  | some tid => .ok (mapErase maps.1 idx, mapErase maps.2 (tid : Int))
  | none => .error .outOfRange

/-- Ascending enumeration of a `Finset Nat` by repeated extraction of the
minimum, with the cardinality as structural fuel (so that concrete runs
reduce inside the kernel). -/
def ascListAux : Nat → Finset Nat → List Nat
  | 0, _ => []
  | fuel + 1, s =>
    if h : s.Nonempty then s.min' h :: ascListAux fuel (s.erase (s.min' h)) else []

/-- The elements of a `Finset Nat` in ascending order, the iteration order
of a `std::set<int>`. -/
def ascList (s : Finset Nat) : List Nat := ascListAux s.card s

/-- `eraseDeletedTenants` (lines 94-101): fold `reconcileDeleteStep` over the
slots of `lastDeletedTenants` in ascending order (`std::set` iteration
order), then clear `lastDeletedTenants`. -/
def eraseDeletedTenants (m : Model) : Except WErr Model :=
  match (ascList m.lastDeletedTenants).foldlM reconcileDeleteStep (m.idx2Tid, m.tid2Idx) with
  | .ok maps => .ok ⟨maps.1, maps.2, m.lastCreatedTenants, ∅⟩
  | .error e => .error e

/-- Modelled from the spec: `extractTenantId` (lines 85-92) parses the
store-returned metadata value with `json_spirit` and reads its integer `id`
field through `JSONDoc`; neither library is part of this repository's
sources.  Per the spec (`decodeAssignedIdentifier`), a payload is modelled
as the optional integer value of its `id` field — `none` when the payload is
malformed or the field is absent, in which case decoding fails with a decode
error. -/
def extractTenantId : Option Int → Except WErr Int
  | some id => .ok id
  | none => .error .decodeError

/-- The randomness consumed by one iteration of the transaction-planning
loop (lines 229-244): the operation draw `op = randomInt(0, 4)`, the slot
scan start `start = randomInt(0, tenantCount)`, the `coinflip()` and the
stream of `randomInt64` candidates used by `writeToInvalidTenant`. -/
structure OpRand where
  op : Nat
  start : Nat
  coin : Bool
  cands : List Int
deriving DecidableEq

/-- One iteration of the planning loop body (lines 230-244): the four-way
dispatch with its feasibility gates, returning the updated model, the key
mutations added to the transaction, and the updated `illegalAccess` flag
(set after a successful `writeToInvalidTenant`, line 240). -/
def planOp (N : Nat) (m : Model) (r : OpRand) (illegal : Bool) :
    Except WErr (Model × List Mutation × Bool) :=
  if r.op = 0 ∧ predictTenantCount m < (N : Int) then
    match createNewTenant m N r.start with
    | .ok p => .ok (p.1, p.2, illegal)
    | .error e => .error e
  else if r.op = 1 ∧ 0 < predictTenantCount m then
    match deleteExistedTenant m N r.start with
    | .ok p => .ok (p.1, p.2, illegal)
    | .error e => .error e
  else if r.op = 2 ∧ predictTenantCount m < (N : Int) then
    match writeToInvalidTenant N m r.coin r.cands with
    | .ok p => .ok (p.1, [p.2], true)
    | .error e => .error e
  else if r.op = 3 ∧ 0 < m.idx2Tid.length then
    match writeToExistedTenant m r.start with
    | .ok p => .ok (p.1, [p.2], illegal)
    | .error e => .error e
  else .ok (m, [], illegal)

/-- One build of a transaction attempt: the planning loop over its drawn
randomness (the source always draws 10 operations; the embedding takes the
drawn list).  Model updates persist across a failed attempt, exactly as the
source's containers do across retries. -/
def buildAttempt (N : Nat) : Model → List OpRand → Bool → Except WErr (Model × Bool)
  | m, [], illegal => .ok (m, illegal)
  | m, r :: rs, illegal =>
    match planOp N m r illegal with
    | .ok p => buildAttempt N p.1 rs p.2.2
    | .error e => .error e

/-- The store's response to one submission of the built transaction. -/
inductive StoreResponse where
  | commitOk
  | illegalTenantAccess
  | transientError
deriving DecidableEq

/-- Whether a response is the distinguished `illegal_tenant_access` error
(line 250). -/
def respIsIllegal : StoreResponse → Bool
  | .illegalTenantAccess => true
  | _ => false

/-- The store enforces tenant isolation correctly along a trace of attempts:
each submission fails with `illegal_tenant_access` exactly when the attempt
just built contains an illegal raw write (and a commit therefore succeeds
only for attempts without one). -/
def storeCorrect (N : Nat) : Model → List (List OpRand × StoreResponse) → Bool
  | _, [] => true
  | m, (rs, resp) :: rest =>
    match buildAttempt N m rs false with
    | .error _ => true
    | .ok p => (p.2 == respIsIllegal resp) && storeCorrect N p.1 rest

/-- The retry loop of `randomTenantTransaction` (lines 222-255): rebuild the
attempt, submit, record `illegalAccessCaught` when the error is
`illegal_tenant_access`, and stop at the first successful commit, returning
the final `(illegalAccess, illegalAccessCaught)` pair.  `none` when the
trace ends without a commit or a build fails. -/
def runAttempts (N : Nat) : Model → Bool → Bool → List (List OpRand × StoreResponse) →
    Option (Bool × Bool)
  | _, _, _, [] => none
  | m, illegal, caught, (rs, resp) :: rest =>
    match buildAttempt N m rs false with
    | .error _ => none
    | .ok p =>
      match resp with
      | .commitOk => some (illegal || p.2, caught)
      | .illegalTenantAccess => runAttempts N p.1 (illegal || p.2) true rest
      | .transientError => runAttempts N p.1 (illegal || p.2) caught rest

/-- Projection used to state concrete capacity computations: the predicted
tenant count after a successful build. -/
def predictAfter (x : Except WErr (Model × Bool)) : Option Int :=
  match x with
  | .ok p => some (predictTenantCount p.1)
  | .error _ => none

/-- The planning-time invariant that actually holds for the source's
bookkeeping: `lastCreatedTenants` and `lastDeletedTenants` are disjoint, and
the predicted count stays within `[-1, N + 1]`. -/
def ModelInv (N : Nat) (m : Model) : Prop :=
  m.lastCreatedTenants ∩ m.lastDeletedTenants = ∅ ∧
  -1 ≤ predictTenantCount m ∧ predictTenantCount m ≤ (N : Int) + 1

/-- Shape invariant of reachable model states used for scan termination: all
slot indices live in `[0, N)`, `idx2Tid` has no duplicate keys, and the two
pending sets are disjoint. -/
def ScanWF (N : Nat) (m : Model) : Prop :=
  (∀ p ∈ m.idx2Tid, p.1 < N) ∧
  (m.idx2Tid.map Prod.fst).Nodup ∧
  (∀ i ∈ m.lastCreatedTenants, i < N) ∧
  (∀ i ∈ m.lastDeletedTenants, i < N) ∧
  m.lastCreatedTenants ∩ m.lastDeletedTenants = ∅

/-! ### Helper lemmas -/

/-- Every slot below `N` occurs in the cyclic scan order from `r`. -/
theorem mem_cycleFrom {N r i : Nat} (hr : r < N) (hi : i < N) : i ∈ cycleFrom r N := by
  have hN : 0 < N := Nat.lt_of_le_of_lt (Nat.zero_le r) hr
  unfold cycleFrom
  rw [List.mem_map]
  have hs : r % N < N := Nat.mod_lt _ hN
  by_cases hle : r % N ≤ i
  · refine ⟨i - r % N, List.mem_range.mpr (by omega), ?_⟩
    rw [Nat.add_mod, Nat.mod_eq_of_lt (show i - r % N < N by omega)]
    rw [show r % N + (i - r % N) = i by omega, Nat.mod_eq_of_lt hi]
  · refine ⟨i + N - r % N, List.mem_range.mpr (by omega), ?_⟩
    rw [Nat.add_mod, Nat.mod_eq_of_lt (show i + N - r % N < N by omega)]
    rw [show r % N + (i + N - r % N) = i + N by omega, Nat.add_mod_right,
      Nat.mod_eq_of_lt hi]

/-- A successful association-list lookup returns a pair of the list. -/
theorem lookup_mem {l : List (Nat × Int)} {k : Nat} {v : Int}
    (h : l.lookup k = some v) : (k, v) ∈ l := by
  induction l with
  | nil => simp [List.lookup] at h
  | cons p t ih =>
    obtain ⟨a, b⟩ := p
    rw [List.lookup] at h
    split at h
    next heq =>
      have hk : k = a := by simpa using heq
      cases h
      exact hk ▸ List.mem_cons_self _ _
    next => exact List.mem_cons_of_mem _ (ih h)

/-- Lookup succeeds on any key of the association list. -/
theorem lookup_isSome_of_mem_keys {l : List (Nat × Int)} {k : Nat}
    (h : k ∈ l.map Prod.fst) : (l.lookup k).isSome := by
  induction l with
  | nil => simp at h
  | cons p t ih =>
    obtain ⟨a, b⟩ := p
    rw [List.lookup]
    split
    next => simp
    next heq =>
      have hk : k ≠ a := by simpa using heq
      rw [List.map_cons, List.mem_cons] at h
      exact ih (h.resolve_left hk)

/-- The lower-bound key is a key of the map. -/
theorem lowerBoundKey_mem {l : List (Nat × Int)} {x k : Nat}
    (h : lowerBoundKey l x = some k) : k ∈ l.map Prod.fst := by
  have hmin : ∀ {xs : List Nat} {a : Nat}, xs.min? = some a → a ∈ xs :=
    fun h => List.min?_mem (fun a b => min_choice a b) h
  unfold lowerBoundKey at h
  split at h
  next k0 hk0 =>
    cases h
    exact List.mem_of_mem_filter (hmin hk0)
  next => exact hmin h

/-- The lower bound exists whenever the map is non-empty. -/
theorem lowerBoundKey_isSome {l : List (Nat × Int)} {x : Nat} (h : l ≠ []) :
    (lowerBoundKey l x).isSome := by
  unfold lowerBoundKey
  split
  next => simp
  next =>
    cases hmin : (l.map Prod.fst).min? with
    | some a => simp
    | none =>
      rw [List.min?_eq_none_iff, List.map_eq_nil_iff] at hmin
      exact absurd hmin h

/-- The body of `writeToExistedTenant` leaves the model containers
untouched. -/
theorem writeToExistedTenant_frame {m : Model} {r : Nat} {p : Model × Mutation}
    (h : writeToExistedTenant m r = .ok p) : p.1 = m := by
  unfold writeToExistedTenant at h
  split at h
  · split at h
    · split at h
      · cases h; rfl
      · exact absurd h (by simp)
    · exact absurd h (by simp)
  · exact absurd h (by simp)

/-- The body of `writeToInvalidTenant` leaves the model containers
untouched. -/
theorem writeToInvalidTenant_frame {N : Nat} {m : Model} {coin : Bool}
    {cands : List Int} {p : Model × Mutation}
    (h : writeToInvalidTenant N m coin cands = .ok p) : p.1 = m := by
  unfold writeToInvalidTenant at h
  split at h
  · split at h
    · split at h
      · split at h
        · exact absurd h (by simp)
        · cases h; rfl
      · exact absurd h (by simp)
    · split at h
      · split at h
        · exact absurd h (by simp)
        · cases h; rfl
      · exact absurd h (by simp)
  · exact absurd h (by simp)

/-- Disjointness of the pending sets survives a create step. -/
theorem disj_insert_erase {s t : Finset Nat} {i : Nat} (h : s ∩ t = ∅) :
    (insert i s) ∩ (t.erase i) = ∅ := by
  ext x
  simp only [Finset.mem_inter, Finset.mem_insert, Finset.mem_erase,
    Finset.not_mem_empty, iff_false]
  rintro ⟨rfl | hx1, hx2, hx3⟩
  · exact hx2 rfl
  · have hmem : x ∈ s ∩ t := Finset.mem_inter.mpr ⟨hx1, hx3⟩
    rw [h] at hmem
    exact Finset.not_mem_empty x hmem

/-- Disjointness of the pending sets survives a delete step. -/
theorem disj_erase_insert {s t : Finset Nat} {i : Nat} (h : s ∩ t = ∅) :
    (s.erase i) ∩ (insert i t) = ∅ := by
  ext x
  simp only [Finset.mem_inter, Finset.mem_erase, Finset.mem_insert,
    Finset.not_mem_empty, iff_false]
  rintro ⟨⟨hx1, hx2⟩, rfl | hx3⟩
  · exact hx1 rfl
  · have hmem : x ∈ s ∩ t := Finset.mem_inter.mpr ⟨hx2, hx3⟩
    rw [h] at hmem
    exact Finset.not_mem_empty x hmem

/-- A gated `createNewTenant` step preserves `ModelInv`. -/
theorem createNewTenant_inv {N : Nat} {m : Model} {r : Nat}
    {q : Model × List Mutation} (hInv : ModelInv N m)
    (h : createNewTenant m N r = .ok q) : ModelInv N q.1 := by
  obtain ⟨hdisj, hlo, hhi⟩ := hInv
  unfold createNewTenant at h
  split at h
  case isTrue hgate =>
    split at h
    case h_1 i hpick =>
      cases h
      have e1 : (insert i m.lastCreatedTenants).card = m.lastCreatedTenants.card ∨
          (insert i m.lastCreatedTenants).card = m.lastCreatedTenants.card + 1 := by
        by_cases hilc : i ∈ m.lastCreatedTenants
        · exact .inl (by rw [Finset.insert_eq_self.mpr hilc])
        · exact .inr (Finset.card_insert_of_not_mem hilc)
      have e2 : ((m.lastDeletedTenants.erase i).card = m.lastDeletedTenants.card - 1 ∧
            1 ≤ m.lastDeletedTenants.card) ∨
          (m.lastDeletedTenants.erase i).card = m.lastDeletedTenants.card := by
        by_cases hild : i ∈ m.lastDeletedTenants
        · exact .inl ⟨Finset.card_erase_of_mem hild, Finset.card_pos.mpr ⟨i, hild⟩⟩
        · exact .inr (by rw [Finset.erase_eq_of_not_mem hild])
      refine ⟨disj_insert_erase hdisj, ?_, ?_⟩ <;>
        (unfold predictTenantCount at hgate hlo hhi ⊢; simp only at *; omega)
    case h_2 => exact absurd h (by simp)
  case isFalse => exact absurd h (by simp)

/-- A gated `deleteExistedTenant` step preserves `ModelInv`. -/
theorem deleteExistedTenant_inv {N : Nat} {m : Model} {r : Nat}
    {q : Model × List Mutation} (hInv : ModelInv N m)
    (h : deleteExistedTenant m N r = .ok q) : ModelInv N q.1 := by
  obtain ⟨hdisj, hlo, hhi⟩ := hInv
  unfold deleteExistedTenant at h
  split at h
  case isTrue hgate =>
    split at h
    case h_1 i hpick =>
      cases h
      have hpred := List.find?_some hpick
      simp only [Bool.and_eq_true, Bool.not_eq_true', decide_eq_false_iff_not] at hpred
      have hild : i ∉ m.lastDeletedTenants := hpred.2
      have e1 : (insert i m.lastDeletedTenants).card = m.lastDeletedTenants.card + 1 :=
        Finset.card_insert_of_not_mem hild
      have e2 : ((m.lastCreatedTenants.erase i).card = m.lastCreatedTenants.card - 1 ∧
            1 ≤ m.lastCreatedTenants.card) ∨
          (m.lastCreatedTenants.erase i).card = m.lastCreatedTenants.card := by
        by_cases hilc : i ∈ m.lastCreatedTenants
        · exact .inl ⟨Finset.card_erase_of_mem hilc, Finset.card_pos.mpr ⟨i, hilc⟩⟩
        · exact .inr (by rw [Finset.erase_eq_of_not_mem hilc])
      refine ⟨disj_erase_insert hdisj, ?_, ?_⟩ <;>
        (unfold predictTenantCount at hgate hlo hhi ⊢; simp only at *; omega)
    case h_2 => exact absurd h (by simp)
  case isFalse => exact absurd h (by simp)

/-- One iteration of the planning dispatch preserves `ModelInv`. -/
theorem planOp_inv {N : Nat} {m : Model} {r : OpRand} {illegal : Bool}
    {q : Model × List Mutation × Bool} (hInv : ModelInv N m)
    (h : planOp N m r illegal = .ok q) : ModelInv N q.1 := by
  unfold planOp at h
  split at h
  · split at h
    next p hp => cases h; exact createNewTenant_inv hInv hp
    next => exact absurd h (by simp)
  · split at h
    · split at h
      next p hp => cases h; exact deleteExistedTenant_inv hInv hp
      next => exact absurd h (by simp)
    · split at h
      · split at h
        next p hp =>
          cases h
          have := writeToInvalidTenant_frame hp
          simpa [this] using hInv
        next => exact absurd h (by simp)
      · split at h
        · split at h
          next p hp =>
            cases h
            have := writeToExistedTenant_frame hp
            simpa [this] using hInv
          next => exact absurd h (by simp)
        · cases h; exact hInv

/-! ### Claim theorems -/

/-- Claim C9: on a well-formed model state (all slots below `N`, no
duplicate keys, disjoint pending sets), both slot scans stop within one full
wrap of at most `N` steps: the create scan finds an eligible slot whenever
`predictTenantCount() < tenantCount`, and the delete scan finds one whenever
`predictTenantCount() > 0`. -/
theorem scan_termination (N r : Nat) (m : Model) (hwf : ScanWF N m) (hr : r < N) :
    (predictTenantCount m < (N : Int) → (pickSlotForCreate m N r).isSome) ∧
      (0 < predictTenantCount m → (pickSlotForDelete m N r).isSome) := by
  obtain ⟨hkeys, hnd, hlc, hld, hdisj⟩ := hwf
  constructor
  · intro hgate
    rw [Option.isSome_iff_ne_none]
    intro hnone
    unfold pickSlotForCreate at hnone
    rw [List.find?_eq_none] at hnone
    have hall : ∀ i, i < N → mapContains m.idx2Tid i = true ∧ i ∈ m.lastCreatedTenants := by
      intro i hi
      have hcond := hnone i (mem_cycleFrom hr hi)
      simp only [Bool.not_eq_true', Bool.not_eq_false, Bool.and_eq_true,
        decide_eq_true_eq] at hcond
      exact hcond
    have hsub1 : Finset.range N ⊆ (m.idx2Tid.map Prod.fst).toFinset := by
      intro i hi
      rw [List.mem_toFinset]
      have hc := (hall i (Finset.mem_range.mp hi)).1
      unfold mapContains at hc
      exact of_decide_eq_true hc
    have hlen : N ≤ m.idx2Tid.length := by
      have hcard := Finset.card_le_card hsub1
      rwa [Finset.card_range, List.toFinset_card_of_nodup hnd, List.length_map] at hcard
    have hsub2 : Finset.range N ⊆ m.lastCreatedTenants := fun i hi =>
      (hall i (Finset.mem_range.mp hi)).2
    have hc2 : N ≤ m.lastCreatedTenants.card := by
      have hcard := Finset.card_le_card hsub2
      rwa [Finset.card_range] at hcard
    have hsub3 : m.lastDeletedTenants ⊆ Finset.range N := fun i hi =>
      Finset.mem_range.mpr (hld i hi)
    have hc3 : m.lastDeletedTenants.card ≤ N := by
      have hcard := Finset.card_le_card hsub3
      rwa [Finset.card_range] at hcard
    unfold predictTenantCount at hgate
    omega
  · intro hgate
    rw [Option.isSome_iff_ne_none]
    intro hnone
    unfold pickSlotForDelete at hnone
    rw [List.find?_eq_none] at hnone
    have hall : ∀ i, i < N → (mapContains m.idx2Tid i = true ∨ i ∈ m.lastCreatedTenants) →
        i ∈ m.lastDeletedTenants := by
      intro i hi hex
      have hcond := hnone i (mem_cycleFrom hr hi)
      by_contra hc
      apply hcond
      simp only [Bool.and_eq_true, Bool.or_eq_true, decide_eq_true_eq,
        Bool.not_eq_true', decide_eq_false_iff_not]
      exact ⟨hex, hc⟩
    have hlc_empty : m.lastCreatedTenants = ∅ := by
      rw [Finset.eq_empty_iff_forall_not_mem]
      intro i hi
      have hin : i ∈ m.lastDeletedTenants := hall i (hlc i hi) (.inr hi)
      have hmem : i ∈ m.lastCreatedTenants ∩ m.lastDeletedTenants :=
        Finset.mem_inter.mpr ⟨hi, hin⟩
      rw [hdisj] at hmem
      exact Finset.not_mem_empty i hmem
    have hsub1 : (m.idx2Tid.map Prod.fst).toFinset ⊆ m.lastDeletedTenants := by
      intro k hk
      rw [List.mem_toFinset] at hk
      have hkN : k < N := by
        obtain ⟨p, hp, hpk⟩ := List.mem_map.mp hk
        exact hpk ▸ hkeys p hp
      exact hall k hkN (.inl (by unfold mapContains; exact decide_eq_true hk))
    have hlen : m.idx2Tid.length ≤ m.lastDeletedTenants.card := by
      have hcard := Finset.card_le_card hsub1
      rwa [List.toFinset_card_of_nodup hnd, List.length_map] at hcard
    unfold predictTenantCount at hgate
    rw [hlc_empty] at hgate
    simp only [Finset.card_empty, Nat.cast_zero, add_zero] at hgate
    omega

/-- Witness for C9 at a concrete well-formed state with one active tenant
out of two slots: both scans succeed. -/
theorem scan_termination_witness :
    (pickSlotForCreate ⟨[(0, 5)], [(5, 0)], ∅, ∅⟩ 2 0).isSome ∧
      (pickSlotForDelete ⟨[(0, 5)], [(5, 0)], ∅, ∅⟩ 2 0).isSome :=
  ⟨(scan_termination 2 0 ⟨[(0, 5)], [(5, 0)], ∅, ∅⟩
      ⟨by decide, by decide, by decide, by decide, by decide⟩ (by decide)).1 (by decide),
   (scan_termination 2 0 ⟨[(0, 5)], [(5, 0)], ∅, ∅⟩
      ⟨by decide, by decide, by decide, by decide, by decide⟩ (by decide)).2 (by decide)⟩

/-- Claim C2 (amended): along any gated planning sequence from a state whose
pending sets are disjoint and whose predicted count lies in `[-1, N + 1]`,
the predicted count stays within `[-1, N + 1]`.  The original bounds
`[0, N]` do not hold; see the counterexample. -/
theorem capacity_bounds_relaxed (N : Nat) (rs : List OpRand) :
    ∀ (m : Model) (illegal : Bool) (p : Model × Bool),
      ModelInv N m → buildAttempt N m rs illegal = .ok p →
      -1 ≤ predictTenantCount p.1 ∧ predictTenantCount p.1 ≤ (N : Int) + 1 := by
  induction rs with
  | nil =>
    intro m ill p hInv h
    cases h
    exact hInv.2
  | cons r rs ih =>
    intro m ill p hInv h
    rw [buildAttempt] at h
    cases hstep : planOp N m r ill with
    | error e => rw [hstep] at h; exact absurd h (by simp)
    | ok q => rw [hstep] at h; exact ih q.1 q.2.2 p (planOp_inv hInv hstep) h

/-- Counterexample to C2 as stated: from two active slots with `N = 2`,
deleting slot 0 and then re-creating it (both operations passing their
gates) drives the predicted count to `3 > N`; and from the empty model with
`N = 1`, creating slot 0 and then deleting it drives the predicted count to
`-1 < 0`. -/
theorem capacity_bounds_violated :
    predictAfter (buildAttempt 2 ⟨[(0, 10), (1, 11)], [(10, 0), (11, 1)], ∅, ∅⟩
        [⟨1, 0, false, []⟩, ⟨0, 0, false, []⟩] false) = some 3 ∧
      predictAfter (buildAttempt 1 ⟨[], [], ∅, ∅⟩
        [⟨0, 0, false, []⟩, ⟨1, 0, false, []⟩] false) = some (-1) := by
  decide

/-- Witness for C2 (amended) at a concrete gated plan: one create from the
empty model with `N = 1` ends with predicted count `1`, inside the bounds. -/
theorem capacity_bounds_witness :
    -1 ≤ predictTenantCount ⟨[], [], {0}, ∅⟩ ∧
      predictTenantCount ⟨[], [], {0}, ∅⟩ ≤ (1 : Int) + 1 :=
  capacity_bounds_relaxed 1 [⟨0, 0, false, []⟩] ⟨[], [], ∅, ∅⟩ false
    (⟨[], [], {0}, ∅⟩, false) ⟨by decide, by decide, by decide⟩ (by decide)

/-- Claim C1: for every run of the retry loop that reaches a successful
commit, if the store enforces tenant isolation correctly (a submission
fails with `illegal_tenant_access` exactly when the attempt just built
planned an illegal raw write) and the two flags start out equal, then the
final `illegalAccess` flag equals the final `illegalAccessCaught` flag, so
the post-commit `ASSERT_EQ(illegalAccessCaught, illegalAccess)` never
fires. -/
theorem illegal_access_oracle (N : Nat) (trace : List (List OpRand × StoreResponse)) :
    ∀ (m : Model) (illegal caught : Bool) (res : Bool × Bool),
      storeCorrect N m trace = true → illegal = caught →
      runAttempts N m illegal caught trace = some res → res.1 = res.2 := by
  induction trace with
  | nil =>
    intro m ill c res _ _ hrun
    simp [runAttempts] at hrun
  | cons a rest ih =>
    obtain ⟨rs, resp⟩ := a
    intro m ill c res hcorr hic hrun
    rw [storeCorrect] at hcorr
    rw [runAttempts] at hrun
    cases hb : buildAttempt N m rs false with
    | error e => rw [hb] at hrun; exact absurd hrun (by simp)
    | ok p =>
      rw [hb] at hcorr hrun
      simp only [Bool.and_eq_true, beq_iff_eq] at hcorr
      obtain ⟨hresp, hrest⟩ := hcorr
      cases resp with
      | commitOk =>
        simp only [respIsIllegal] at hresp
        have hrun' : some (ill || p.2, c) = some res := hrun
        cases hrun'
        simp [hresp, hic]
      | illegalTenantAccess =>
        exact ih p.1 (ill || p.2) true res hrest (by simp [hresp, respIsIllegal]) hrun
      | transientError =>
        simp only [respIsIllegal] at hresp
        exact ih p.1 (ill || p.2) c res hrest (by rw [hresp, hic]; simp) hrun

/-- Witness for C1 at a concrete two-attempt trace: the first attempt plans
an illegal write and the store rejects it with the illegal-tenant-access
error; the rebuilt attempt plans nothing and commits; both flags end
`true`. -/
theorem illegal_access_oracle_witness :
    runAttempts 1 ⟨[], [], ∅, ∅⟩ false false
        [([⟨2, 0, true, [5]⟩], .illegalTenantAccess), ([], .commitOk)] =
      some (true, true) ∧
      ((true, true) : Bool × Bool).1 = ((true, true) : Bool × Bool).2 :=
  ⟨by decide,
   illegal_access_oracle 1 [([⟨2, 0, true, [5]⟩], .illegalTenantAccess), ([], .commitOk)]
     ⟨[], [], ∅, ∅⟩ false false (true, true) (by decide) rfl (by decide)⟩

/-- Claim C3 (code bug): at a state with slot 0 Active (present in
`idx2Tid`), no pending operations, and spare capacity, the create scan
starting at slot 0 stops at slot 0 itself — a slot that is in `idx2Tid` —
because the scan condition conjoins membership in `idx2Tid` with membership
in `lastCreatedTenants` instead of disjoining them, contradicting the
source's own comment that it looks for the nearest non-existing tenant. -/
theorem create_scan_stops_at_existing_tenant :
    predictTenantCount ⟨[(0, 10)], [(10, 0)], ∅, ∅⟩ < (2 : Int) ∧
      pickSlotForCreate ⟨[(0, 10)], [(10, 0)], ∅, ∅⟩ 2 0 = some 0 ∧
      mapContains (Model.idx2Tid ⟨[(0, 10)], [(10, 0)], ∅, ∅⟩) 0 = true := by
  decide

/-- Claim C4 (amended): in the per-operation dispatch, the LegalWrite
operation (`op == 3`, `writeToExistedTenant`) executes — i.e. adds a raw
write mutation to the transaction — if and only if `idx2Tid` is non-empty
(`idx2Tid.size() > 0`); the `predictedCount() < N` gate claimed by the spec
belongs to the IllegalWrite operation (`op == 2`), not to LegalWrite. -/
theorem legalWrite_gate_is_idx2Tid_nonempty (N : Nat) (m : Model) (r : OpRand)
    (illegal : Bool) (hop : r.op = 3) :
    (∃ q : Model × List Mutation × Bool,
        planOp N m r illegal = .ok q ∧ q.2.1 ≠ []) ↔ m.idx2Tid ≠ [] := by
  have hchain : planOp N m r illegal =
      (if 0 < m.idx2Tid.length then
        match writeToExistedTenant m r.start with
        | .ok p => .ok (p.1, [p.2], illegal)
        | .error e => .error e
      else .ok (m, [], illegal)) := by
    unfold planOp
    rw [hop]
    rw [if_neg (fun h => absurd h.1 (by decide)),
      if_neg (fun h => absurd h.1 (by decide)),
      if_neg (fun h => absurd h.1 (by decide))]
    by_cases hlen : 0 < m.idx2Tid.length
    · rw [if_pos ⟨rfl, hlen⟩, if_pos hlen]
    · rw [if_neg (fun h => absurd h.2 hlen), if_neg hlen]
  rw [hchain]
  constructor
  · rintro ⟨q, hq, hmut⟩
    intro hnil
    rw [hnil] at hq
    simp only [List.length_nil, lt_irrefl, if_false] at hq
    cases hq
    exact hmut rfl
  · intro hne
    have hlen : 0 < m.idx2Tid.length := List.length_pos.mpr hne
    rw [if_pos hlen]
    obtain ⟨k, hk⟩ := Option.isSome_iff_exists.mp (lowerBoundKey_isSome (x := r.start) hne)
    obtain ⟨tid, htid⟩ :=
      Option.isSome_iff_exists.mp (lookup_isSome_of_mem_keys (lowerBoundKey_mem hk))
    have hw : writeToExistedTenant m r.start = .ok (m, Mutation.setRaw tid) := by
      unfold writeToExistedTenant
      rw [if_pos hlen]
      simp only [hk, htid]
    rw [hw]
    exact ⟨(m, [Mutation.setRaw tid], illegal), rfl, by simp⟩

/-- Counterexample to C4 as stated: with one active tenant and `N = 1` the
predicted count is not below `N`, yet the LegalWrite dispatch executes and
adds a raw write; conversely on the empty model with `N = 1` the predicted
count is below `N`, yet LegalWrite is skipped. -/
theorem legalWrite_gate_mismatch :
    (planOp 1 ⟨[(0, 5)], [(5, 0)], ∅, ∅⟩ ⟨3, 0, false, []⟩ false =
        .ok (⟨[(0, 5)], [(5, 0)], ∅, ∅⟩, [Mutation.setRaw 5], false)) ∧
      ¬(predictTenantCount ⟨[(0, 5)], [(5, 0)], ∅, ∅⟩ < (1 : Int)) ∧
      (planOp 1 ⟨[], [], ∅, ∅⟩ ⟨3, 0, false, []⟩ false = .ok (⟨[], [], ∅, ∅⟩, [], false)) ∧
      predictTenantCount ⟨[], [], ∅, ∅⟩ < (1 : Int) := by
  decide

/-- Witness for C4 (amended) at a concrete state with one active tenant:
the LegalWrite dispatch executes. -/
theorem legalWrite_gate_witness :
    ∃ q : Model × List Mutation × Bool,
      planOp 1 ⟨[(0, 5)], [(5, 0)], ∅, ∅⟩ ⟨3, 0, false, []⟩ false = .ok q ∧ q.2.1 ≠ [] :=
  (legalWrite_gate_is_idx2Tid_nonempty 1 ⟨[(0, 5)], [(5, 0)], ∅, ∅⟩ ⟨3, 0, false, []⟩
    false rfl).mpr (by decide)

/-- Claim C5 (code bug): at the spec's Scenario B state — slot 0 Active with
identifier 42 and a committed delete of slot 0 pending reconciliation — the
delete reconciliation does not remove slot 0 from both maps; it fails with
an out-of-range lookup, because the source reads `tid2Idx.at(idx)` (the
id-keyed map indexed with a slot index) where the slot-keyed `idx2Tid` was
intended. -/
theorem eraseDeletedTenants_raises_on_committed_delete :
    eraseDeletedTenants ⟨[(0, 42)], [(42, 0)], ∅, {0}⟩ = .error .outOfRange := by
  decide

/-- Counterexample to C6 as stated: reconciling a deleted slot that is
already absent from both maps is not a no-op — the `tid2Idx.at` lookup
fails, modelling the `std::out_of_range` exception the source would
throw. -/
theorem reconcileDelete_absent_slot_raises :
    eraseDeletedTenants ⟨[], [], ∅, {3}⟩ = .error .outOfRange := by
  decide

/-- Claim C6 (amended): a second application of `eraseDeletedTenants` after
a successful one is a no-op — the first successful application leaves
`lastDeletedTenants` empty, so the second raises no error and returns the
state unchanged. -/
theorem eraseDeletedTenants_second_application_noop (m m' : Model)
    (h : eraseDeletedTenants m = .ok m') : eraseDeletedTenants m' = .ok m' := by
  unfold eraseDeletedTenants at h
  split at h
  next maps hfold =>
    cases h
    rfl
  next => exact absurd h (by simp)

/-- Witness for C6 (amended) at a concrete state whose single pending delete
reconciles successfully (the slot index happens to be a key of `tid2Idx`):
the second application returns the state unchanged. -/
theorem eraseDeletedTenants_idempotent_witness :
    eraseDeletedTenants ⟨[(0, 9)], [(0, 5)], ∅, {0}⟩ = .ok ⟨[], [(0, 5)], ∅, ∅⟩ ∧
      eraseDeletedTenants ⟨[], [(0, 5)], ∅, ∅⟩ = .ok ⟨[], [(0, 5)], ∅, ∅⟩ :=
  ⟨by decide, eraseDeletedTenants_second_application_noop ⟨[(0, 9)], [(0, 5)], ∅, {0}⟩
    ⟨[], [(0, 5)], ∅, ∅⟩ (by decide)⟩

/-- Claim C7: the assigned-identifier decoder either returns the integer
value of the payload's `id` field, or fails with a decode error when the
field is absent or the payload malformed; it never fabricates a value. -/
theorem extractTenantId_spec (v : Option Int) :
    (∃ id, v = some id ∧ extractTenantId v = .ok id) ∨
      (v = none ∧ extractTenantId v = .error .decodeError) := by
  cases v with
  | none => exact .inr ⟨rfl, rfl⟩
  | some id => exact .inl ⟨id, rfl, rfl⟩

/-- Claim C8 (amended): under the gate `predictTenantCount() < tenantCount`,
with all stored identifiers non-negative and the sampled candidates drawn
from `[0, 2^63)`, `writeToInvalidTenant` never fails its
`ASSERT_GE(tenantId, 0)`; when it completes, the written identifier is
non-negative and is either (coin heads with a pending delete) the
identifier of the least slot deleted earlier in the same attempt, looked up
via `idx2Tid` — an identifier that may still be a key of `tid2Idx`, since
reconciliation has not yet run — or else a sampled candidate that is not a
key of `tid2Idx`. -/
theorem writeToInvalidTenant_target_spec (N : Nat) (m : Model) (coin : Bool)
    (cands : List Int)
    (hpred : predictTenantCount m < (N : Int))
    (hids : ∀ p ∈ m.idx2Tid, 0 ≤ p.2)
    (hcands : ∀ c ∈ cands, 0 ≤ c ∧ c < 2 ^ 63) :
    writeToInvalidTenant N m coin cands ≠ .error .assertFailed ∧
      ∀ q : Model × Mutation, writeToInvalidTenant N m coin cands = .ok q →
        ∃ tid, q.2 = Mutation.setRaw tid ∧ 0 ≤ tid ∧
          (∀ h : coin = true ∧ m.lastDeletedTenants.Nonempty,
            m.idx2Tid.lookup (m.lastDeletedTenants.min' h.2) = some tid) ∧
          (¬(coin = true ∧ m.lastDeletedTenants.Nonempty) →
            mapContains m.tid2Idx tid = false ∧ tid ∈ cands ∧ tid < 2 ^ 63) := by
  by_cases hbr : coin = true ∧ m.lastDeletedTenants.Nonempty
  · cases hlk : m.idx2Tid.lookup (m.lastDeletedTenants.min' hbr.2) with
    | none =>
      have hw : writeToInvalidTenant N m coin cands = .error .outOfRange := by
        unfold writeToInvalidTenant
        rw [if_pos hpred, dif_pos hbr]
        simp only [hlk]
      rw [hw]
      exact ⟨by decide, fun q hq => absurd hq (by simp)⟩
    | some tid =>
      have htid : 0 ≤ tid := hids _ (lookup_mem hlk)
      have hw : writeToInvalidTenant N m coin cands = .ok (m, Mutation.setRaw tid) := by
        unfold writeToInvalidTenant
        rw [if_pos hpred, dif_pos hbr]
        simp only [hlk]
        rw [if_neg (by omega)]
      rw [hw]
      refine ⟨by simp, fun q hq => ?_⟩
      cases hq
      exact ⟨tid, rfl, htid, fun h => hlk, fun h => absurd hbr h⟩
  · cases hfind : cands.find? (fun c => !mapContains m.tid2Idx c) with
    | none =>
      have hw : writeToInvalidTenant N m coin cands = .error .randExhausted := by
        unfold writeToInvalidTenant
        rw [if_pos hpred, dif_neg hbr]
        simp only [hfind]
      rw [hw]
      exact ⟨by decide, fun q hq => absurd hq (by simp)⟩
    | some tid =>
      have hmem := List.mem_of_find?_eq_some hfind
      have hnotin := List.find?_some hfind
      simp only [Bool.not_eq_true'] at hnotin
      obtain ⟨h0, h63⟩ := hcands tid hmem
      have hw : writeToInvalidTenant N m coin cands = .ok (m, Mutation.setRaw tid) := by
        unfold writeToInvalidTenant
        rw [if_pos hpred, dif_neg hbr]
        simp only [hfind]
        rw [if_neg (by omega)]
      rw [hw]
      refine ⟨by simp, fun q hq => ?_⟩
      cases hq
      exact ⟨tid, rfl, h0, fun h => absurd h hbr, fun _ => ⟨hnotin, hmem, h63⟩⟩

/-- Counterexample to C8 as stated: with slot 0 Active (identifier 7) and
deleted in the current attempt, the coin-heads branch targets identifier 7,
which is still a key of `tid2Idx` — the claim that the target is never a
key of `tid2Idx` fails. -/
theorem writeToInvalidTenant_deleted_tenant_still_mapped :
    writeToInvalidTenant 2 ⟨[(0, 7)], [(7, 0)], ∅, {0}⟩ true [] =
        .ok (⟨[(0, 7)], [(7, 0)], ∅, {0}⟩, Mutation.setRaw 7) ∧
      mapContains (Model.tid2Idx ⟨[(0, 7)], [(7, 0)], ∅, {0}⟩) 7 = true := by
  decide

/-- Witness for C8 (amended) at the empty model with a single sampled
candidate: the assertion cannot fail. -/
theorem writeToInvalidTenant_target_spec_witness :
    writeToInvalidTenant 1 ⟨[], [], ∅, ∅⟩ false [5] ≠ Except.error WErr.assertFailed :=
  (writeToInvalidTenant_target_spec 1 ⟨[], [], ∅, ∅⟩ false [5] (by decide) (by decide)
    (by decide)).1

/-- Claim C10: the two write-planning operations leave the tenant model
unchanged — under the source's preconditions (`idx2Tid` non-empty for
`writeToExistedTenant`, `predictTenantCount() < tenantCount` for
`writeToInvalidTenant`), a successful run of either returns the model
exactly as given; only creates, deletes and reconciliation mutate it. -/
theorem write_ops_preserve_model (N : Nat) (m : Model) (r : Nat) (coin : Bool)
    (cands : List Int) (p q : Model × Mutation)
    (hne : m.idx2Tid ≠ []) (hpred : predictTenantCount m < (N : Int))
    (ha : writeToExistedTenant m r = .ok p)
    (hb : writeToInvalidTenant N m coin cands = .ok q) :
    p.1 = m ∧ q.1 = m :=
  ⟨writeToExistedTenant_frame ha, writeToInvalidTenant_frame hb⟩

/-- Witness for C10 at a concrete state with one active tenant: both write
operations succeed and both leave the model unchanged. -/
theorem write_ops_preserve_model_witness :
    writeToExistedTenant ⟨[(0, 5)], [(5, 0)], ∅, ∅⟩ 0 =
        .ok (⟨[(0, 5)], [(5, 0)], ∅, ∅⟩, Mutation.setRaw 5) ∧
      ((⟨[(0, 5)], [(5, 0)], ∅, ∅⟩, Mutation.setRaw 5) : Model × Mutation).1 =
          (⟨[(0, 5)], [(5, 0)], ∅, ∅⟩ : Model) ∧
        ((⟨[(0, 5)], [(5, 0)], ∅, ∅⟩, Mutation.setRaw 7) : Model × Mutation).1 =
          (⟨[(0, 5)], [(5, 0)], ∅, ∅⟩ : Model) :=
  ⟨by decide,
   write_ops_preserve_model 2 ⟨[(0, 5)], [(5, 0)], ∅, ∅⟩ 0 false [7] _ _
     (by decide) (by decide) (by decide) (by decide)⟩

end RawTenantAccess
